import Mathlib

/-!
Verification of the TeraFetch download core against its specification.

The Go source is embedded shallowly: pure functions become Lean functions,
Go `int64`/`int`/`int32` values become `Int` (all arithmetic the planner
performs stays far below 2^63, so no wrap-around modelling is needed),
`float64` quantities of the rate limiter and retry backoff become exact
rationals (`ℚ`), wall-clock instants are passed in as explicit parameters,
and the file system is a finite map from paths to file entries.
-/

namespace TeraFetch

/-- Embeds `internal.SegmentInfo` (src/internal/types.go): one contiguous
byte range of the file.  The Go field `End` is a Lean keyword, so it is
called `endPos` here. -/
structure SegmentInfo where
  index : Int
  start : Int
  endPos : Int
  completed : Bool
  retries : Int
  deriving Repr, DecidableEq

/-- Embeds `internal.FileMetadata` (src/internal/types.go).  `time.Time`
is modelled as an abstract integer instant. -/
structure FileMetadata where
  filename : String
  size : Int
  directURL : String
  shareID : String
  timestamp : Int
  checksum : String
  deriving Repr, DecidableEq

/-- Embeds `internal.ResumeMetadata` (src/internal/types.go).  The Go field
`FileMetadata` is a nullable pointer, hence `Option`. -/
structure ResumeMetadata where
  fileMetadata : Option FileMetadata
  segments : List SegmentInfo
  createdAt : Int
  lastUpdate : Int
  deriving Repr, DecidableEq

/-- Embeds `internal.DownloadConfig` (src/internal/types.go). -/
structure DownloadConfig where
  outputPath : String
  threads : Int
  rateLimit : Int
  proxyURL : String
  quiet : Bool
  resumeData : Option ResumeMetadata

/-- `MinSegmentSize = 1024 * 1024` from the planner (src/unnamed/part_005). -/
def MinSegmentSize : Int := 1024 * 1024

/-- `MaxThreads = 32` from the planner (src/unnamed/part_005). -/
def MaxThreads : Int := 32

/-- Length in bytes of a segment: both offsets are inclusive. -/
def segLen (s : SegmentInfo) : Int := s.endPos - s.start + 1

/-- The segment-construction loop of `CalculateSegments`
(src/unnamed/part_005 lines 101-117): segment `i` spans
`[i*segmentSize, i*segmentSize + segmentSize - 1]`, except the last
(`i = threadCount-1`), which extends to `fileSize - 1`.  The loop
`for i := 0; i < threadCount; i++` is rendered with the explicit counter
`i` and the remaining iteration count `rem` (invariant `i + rem = threadCount`). -/
def segLoop (threadCount segmentSize fileSize : Nat) : Nat → Nat → List SegmentInfo
  | _, 0 => []
  | i, rem + 1 =>
    { index := (i : Int)
      start := ((i * segmentSize : Nat) : Int)
      endPos := if i = threadCount - 1 then (fileSize : Int) - 1
                else ((i * segmentSize : Nat) : Int) + (segmentSize : Int) - 1
      completed := false
      retries := 0 } :: segLoop threadCount segmentSize fileSize (i + 1) rem

/-- The input clamping of `CalculateSegments` (src/unnamed/part_005
lines 66-71): `threadCount <= 0` becomes 1, values above `MaxThreads`
become `MaxThreads`. -/
def clampThreads (threadCount : Int) : Int :=
  let tc0 : Int := if threadCount ≤ 0 then 1 else threadCount
  if tc0 > MaxThreads then MaxThreads else tc0

/-- The thread-count reduction of `CalculateSegments` (src/unnamed/part_005
lines 87-97): when `fileSize / threadCount` falls below the minimum segment
size, the thread count is replaced by `fileSize / MinSegmentSize` (at
least 1). -/
def reducedThreads (n t0 : Nat) : Nat :=
  if n / t0 < MinSegmentSize.toNat then
    let tr := n / MinSegmentSize.toNat
    if tr = 0 then 1 else tr
  else t0

/-- Embeds `DownloadPlanner.CalculateSegments` (src/unnamed/part_005
lines 60-120) with `p.minSegmentSize = MinSegmentSize` and
`p.maxThreads = MaxThreads` (the values `NewDownloadPlanner` installs).
All quantities inside the positive branch are non-negative `int64`/`int`
values, so they are carried as `Nat` (Go integer division on non-negative
operands agrees with `Nat` division).  In the source the clamping happens
before the small-file test; it does not feed that branch, so hoisting it
into `clampThreads` is behaviour-preserving. -/
def CalculateSegments (fileSize threadCount : Int) : List SegmentInfo :=
  if fileSize ≤ 0 then []
  else if fileSize < MinSegmentSize then
    [{ index := 0, start := 0, endPos := fileSize - 1, completed := false, retries := 0 }]
  else
    let n : Nat := fileSize.toNat
    let t : Nat := reducedThreads n (clampThreads threadCount).toNat
    segLoop t (n / t) n 0 t

/-- Embeds `DownloadPlanner.determineOptimalThreads` (src/unnamed/part_005
lines 123-146). -/
def determineOptimalThreads (fileSize requestedThreads : Int) : Int :=
  let o1 : Int := if requestedThreads ≤ 0 then 1 else requestedThreads
  let o2 : Int := if o1 > MaxThreads then MaxThreads else o1
  let mpt0 : Int := fileSize.tdiv MinSegmentSize
  let mpt : Int := if mpt0 = 0 then 1 else mpt0
  if o2 > mpt then mpt else o2

/-- `chainClosed pos size segs` holds when `segs`, read left to right,
covers exactly the byte range `[pos, size)`: each segment starts where the
previous one stopped plus one, is non-empty, and the final segment ends at
`size - 1`. -/
def chainClosed (pos size : Int) : List SegmentInfo → Bool
  | [] => pos == size
  | s :: rest => s.start == pos && decide (s.start ≤ s.endPos) && chainClosed (s.endPos + 1) size rest

/-- `segs` partitions `[0, size)` contiguously in order. -/
def isPartition (size : Int) (segs : List SegmentInfo) : Bool :=
  chainClosed 0 size segs

/-- The `index` fields count up from `k` along the list. -/
def indicesFrom (k : Int) : List SegmentInfo → Bool
  | [] => true
  | s :: rest => s.index == k && indicesFrom (k + 1) rest

theorem segLoop_ne_nil (t s n i rem : Nat) (h : 0 < rem) : segLoop t s n i rem ≠ [] := by
  cases rem with
  | zero => exact absurd h (by omega)
  | succ r => simp [segLoop]

theorem segLoop_chainClosed (t s n : Nat) (hs : 1 ≤ s) (hts : t * s ≤ n) :
    ∀ rem i, i + rem = t → 0 < rem →
      chainClosed ((i * s : Nat) : Int) (n : Int) (segLoop t s n i rem) = true := by
  intro rem
  induction rem with
  | zero => intro i _ h; exact absurd h (by omega)
  | succ r ih =>
    intro i hit _
    have ht1 : 1 ≤ t := by omega
    have hn : 1 ≤ n := le_trans (Nat.mul_pos (by omega) (by omega)) hts
    rcases Nat.eq_zero_or_pos r with hr | hr
    · subst hr
      have hi : i = t - 1 := by omega
      have hmul : i * s + s = t * s := by
        rw [hi, Nat.sub_one_mul]
        have hst : s ≤ t * s := Nat.le_mul_of_pos_left s (by omega)
        omega
      have hlast : i * s ≤ n - 1 := by omega
      simp only [segLoop, chainClosed, if_pos hi, Bool.and_eq_true, beq_iff_eq,
        decide_eq_true_eq]
      refine ⟨⟨trivial, ?_⟩, ?_⟩
      · push_cast
        omega
      · omega
    · have hne : i ≠ t - 1 := by omega
      simp only [segLoop, chainClosed, if_neg hne, Bool.and_eq_true, beq_iff_eq,
        decide_eq_true_eq]
      refine ⟨⟨trivial, ?_⟩, ?_⟩
      · push_cast
        omega
      · have hpos' : ((i * s : Nat) : Int) + (s : Int) - 1 + 1 = (((i + 1) * s : Nat) : Int) := by
          push_cast
          ring
        rw [hpos']
        exact ih (i + 1) (by omega) hr

theorem chainClosed_sum (size : Int) :
    ∀ (segs : List SegmentInfo) (pos : Int), chainClosed pos size segs = true →
      (segs.map segLen).sum = size - pos := by
  intro segs
  induction segs with
  | nil =>
    intro pos h
    simp only [chainClosed, beq_iff_eq] at h
    simp [h]
  | cons s rest ih =>
    intro pos h
    simp only [chainClosed, Bool.and_eq_true, beq_iff_eq, decide_eq_true_eq] at h
    obtain ⟨⟨h1, _⟩, h3⟩ := h
    have hrest := ih (s.endPos + 1) h3
    simp only [List.map_cons, List.sum_cons, segLen, hrest]
    omega

theorem segLoop_indicesFrom (t s n : Nat) :
    ∀ (rem i : Nat), indicesFrom ((i : Nat) : Int) (segLoop t s n i rem) = true := by
  intro rem
  induction rem with
  | zero => intro i; rfl
  | succ r ih =>
    intro i
    simp only [segLoop, indicesFrom, Bool.and_eq_true, beq_iff_eq]
    refine ⟨trivial, ?_⟩
    have hcast : ((i : Nat) : Int) + 1 = (((i + 1 : Nat) : Nat) : Int) := by push_cast; ring
    rw [hcast]
    exact ih (i + 1)

theorem segLoop_dropLast_min (t s n : Nat) (m : Int) (hm : m ≤ (s : Int)) :
    ∀ rem i, i + rem = t →
      ((segLoop t s n i rem).dropLast.all fun sg => decide (m ≤ segLen sg)) = true := by
  intro rem
  induction rem with
  | zero => intro i _; rfl
  | succ r ih =>
    intro i hit
    rcases Nat.eq_zero_or_pos r with hr | hr
    · subst hr
      simp [segLoop]
    · have hne : i ≠ t - 1 := by omega
      simp only [segLoop]
      rw [List.dropLast_cons_of_ne_nil (segLoop_ne_nil t s n (i + 1) r hr)]
      simp only [List.all_cons, Bool.and_eq_true, decide_eq_true_eq]
      refine ⟨?_, ih (i + 1) (by omega)⟩
      simp only [segLen, if_neg hne]
      push_cast
      omega

theorem le_div_div (n m : Nat) (hm : 0 < m) (hmn : m ≤ n) : m ≤ n / (n / m) := by
  have h1 : 0 < n / m := Nat.div_pos hmn hm
  rw [Nat.le_div_iff_mul_le h1]
  calc m * (n / m) = n / m * m := by ring
    _ ≤ n := Nat.div_mul_le_self n m

theorem clampThreads_pos (threadCount : Int) : 1 ≤ clampThreads threadCount := by
  simp only [clampThreads, MaxThreads]
  split_ifs <;> omega

theorem reducedThreads_facts (n t0 : Nat) (ht0 : 1 ≤ t0)
    (hmn : MinSegmentSize.toNat ≤ n) :
    1 ≤ reducedThreads n t0 ∧ reducedThreads n t0 ≤ n ∧
      MinSegmentSize.toNat ≤ n / reducedThreads n t0 := by
  have hm : 0 < MinSegmentSize.toNat := by decide
  have htr : 0 < n / MinSegmentSize.toNat := Nat.div_pos hmn hm
  simp only [reducedThreads]
  split_ifs with h1 h2
  · omega
  · exact ⟨htr, Nat.div_le_self _ _, le_div_div n MinSegmentSize.toNat hm hmn⟩
  · push_neg at h1
    have ht0n : t0 ≤ n := by
      by_contra hgt
      push_neg at hgt
      rw [Nat.div_eq_of_lt hgt] at h1
      omega
    exact ⟨ht0, ht0n, h1⟩

/-- C1: for every file size `size ≥ 0` and every requested thread count, the
segment list produced by `CalculateSegments` partitions `[0, size)`
contiguously in index order (first segment starts at 0, each subsequent
segment starts at the previous end plus 1, the last segment ends at
`size - 1`), the sum of segment lengths equals `size`, every segment except
possibly the last has length at least `MinSegmentSize` whenever
`size ≥ MinSegmentSize`, and the list is empty when `size = 0`. -/
theorem calculateSegments_spec (fileSize threadCount : Int) :
    (fileSize ≤ 0 → CalculateSegments fileSize threadCount = []) ∧
    (0 < fileSize →
      isPartition fileSize (CalculateSegments fileSize threadCount) = true ∧
      indicesFrom 0 (CalculateSegments fileSize threadCount) = true ∧
      ((CalculateSegments fileSize threadCount).map segLen).sum = fileSize ∧
      (MinSegmentSize ≤ fileSize →
        ((CalculateSegments fileSize threadCount).dropLast.all
          fun s => decide (MinSegmentSize ≤ segLen s)) = true)) := by
  constructor
  · intro h
    simp [CalculateSegments, if_pos h]
  · intro hpos
    have hnle : ¬ fileSize ≤ 0 := by omega
    by_cases hsmall : fileSize < MinSegmentSize
    · -- single-segment branch for small files
      simp only [CalculateSegments, if_neg hnle, if_pos hsmall]
      refine ⟨?_, ?_, ?_, ?_⟩
      · simp only [isPartition, chainClosed, Bool.and_eq_true, beq_iff_eq,
          decide_eq_true_eq]
        refine ⟨⟨trivial, by omega⟩, by omega⟩
      · rfl
      · simp only [List.map_cons, List.map_nil, List.sum_cons, List.sum_nil, segLen]
        omega
      · intro _
        rfl
    · -- multi-segment branch
      simp only [CalculateSegments, if_neg hnle, if_neg hsmall]
      have hnat : ((fileSize.toNat : Nat) : Int) = fileSize := Int.toNat_of_nonneg (by omega)
      have hmn : MinSegmentSize.toNat ≤ fileSize.toNat := by
        have : MinSegmentSize ≤ fileSize := by omega
        omega
      have ht0 : 1 ≤ (clampThreads threadCount).toNat := by
        have := clampThreads_pos threadCount
        omega
      obtain ⟨ht1, htn, hts⟩ :=
        reducedThreads_facts fileSize.toNat (clampThreads threadCount).toNat ht0 hmn
      set n := fileSize.toNat with hn
      set t := reducedThreads n (clampThreads threadCount).toNat with htdef
      have hs1 : 1 ≤ n / t := by
        rw [Nat.one_le_div_iff (by omega)]
        exact htn
      have htsle : t * (n / t) ≤ n := by
        calc t * (n / t) = n / t * t := by ring
          _ ≤ n := Nat.div_mul_le_self n t
      have hchain := segLoop_chainClosed t (n / t) n hs1 htsle t 0 (by omega) (by omega)
      rw [Nat.zero_mul] at hchain
      refine ⟨?_, ?_, ?_, ?_⟩
      · simpa [isPartition, hnat] using hchain
      · have := segLoop_indicesFrom t (n / t) n t 0
        simpa using this
      · have hsum := chainClosed_sum (n : Int) (segLoop t (n / t) n 0 t) 0 (by simpa using hchain)
        rw [hsum, hnat]
        ring
      · intro _
        have hmins : MinSegmentSize ≤ ((n / t : Nat) : Int) := by
          have hcast : MinSegmentSize = ((MinSegmentSize.toNat : Nat) : Int) := by decide
          rw [hcast]
          exact_mod_cast hts
        exact segLoop_dropLast_min t (n / t) n MinSegmentSize hmins t 0 (by omega)

/-- Witness for `calculateSegments_spec` at the concrete input
`(size, threads) = (3 MiB, 2)`. -/
theorem calculateSegments_spec_witness :
    0 < (3145728 : Int) ∧
      isPartition 3145728 (CalculateSegments 3145728 2) = true :=
  ⟨by decide, ((calculateSegments_spec 3145728 2).2 (by decide)).1⟩

/-- Embeds `DownloadPlanner.IsDownloadComplete` (src/unnamed/part_005
lines 264-271): the loop returns `false` at the first incomplete segment,
and after the loop the result is `len(segments) > 0`. -/
def IsDownloadComplete (segments : List SegmentInfo) : Bool :=
  loop segments
where
  loop : List SegmentInfo → Bool
    | [] => decide (segments.length > 0)
    | s :: rest => if !s.completed then false else loop rest

theorem isDownloadComplete_loop_iff (segments : List SegmentInfo) :
    ∀ l, IsDownloadComplete.loop segments l = true ↔
      (segments.length > 0 ∧ ∀ s ∈ l, s.completed = true) := by
  intro l
  induction l with
  | nil => simp [IsDownloadComplete.loop]
  | cons s rest ih =>
    cases hc : s.completed with
    | false => simp [IsDownloadComplete.loop, hc, List.forall_mem_cons]
    | true => simp [IsDownloadComplete.loop, hc, ih, List.forall_mem_cons]

/-- C10: `IsDownloadComplete` returns `true` exactly when the segment list
is non-empty and every segment is marked completed; in particular it
returns `false` on the empty list that `CalculateSegments` produces for a
zero-size file. -/
theorem isDownloadComplete_spec (segments : List SegmentInfo) :
    (IsDownloadComplete segments = true ↔
      segments ≠ [] ∧ ∀ s ∈ segments, s.completed = true) ∧
    (∀ threadCount : Int, IsDownloadComplete (CalculateSegments 0 threadCount) = false) := by
  constructor
  · rw [IsDownloadComplete, isDownloadComplete_loop_iff, gt_iff_lt, List.length_pos]
  · intro threadCount
    have hz : CalculateSegments 0 threadCount = [] :=
      (calculateSegments_spec 0 threadCount).1 (by omega)
    rw [hz]
    rfl

/-- Witness for `isDownloadComplete_spec`: a one-element completed list is
classified as complete. -/
theorem isDownloadComplete_spec_witness :
    IsDownloadComplete [⟨0, 0, 9, true, 0⟩] = true :=
  ((isDownloadComplete_spec _).1).mpr ⟨by decide, by decide⟩

/-- Error values of the planner entry points (src/unnamed/part_005):
each constructor stands for one of the `fmt.Errorf` returns of
`PlanDownload` / `planResumeDownload`. -/
inductive PlanError
  | nilMetadata
  | nilConfig
  | resumeMissingFileMetadata
  | sizeMismatch
  | filenameMismatch
  deriving Repr, DecidableEq

/-- Embeds `DownloadPlanner.planResumeDownload` (src/unnamed/part_005
lines 149-165). -/
def planResumeDownload (resumeData : ResumeMetadata) (currentMeta : FileMetadata) :
    Except PlanError (List SegmentInfo) :=
  match resumeData.fileMetadata with
  | none => .error .resumeMissingFileMetadata
  | some fm =>
    if fm.size ≠ currentMeta.size then .error .sizeMismatch
    else if fm.filename ≠ currentMeta.filename then .error .filenameMismatch
    else .ok resumeData.segments

/-- Embeds `DownloadPlanner.PlanDownload` (src/unnamed/part_005
lines 37-57); nil pointers become `none`. -/
def PlanDownload (meta : Option FileMetadata) (config : Option DownloadConfig) :
    Except PlanError (List SegmentInfo) :=
  match meta with
  | none => .error .nilMetadata
  | some m =>
    match config with
    | none => .error .nilConfig
    | some c =>
      match c.resumeData with
      | some rd => planResumeDownload rd m
      | none =>
        .ok (CalculateSegments m.size (determineOptimalThreads m.size c.threads))

/-- C6: planning with resume data fails exactly when the resume record has
no file metadata, a different size, or a different filename than the
currently resolved metadata; otherwise it returns `resume.segments`
verbatim.  `PlanDownload` delegates to `planResumeDownload` whenever
`config.resumeData` is set. -/
theorem planResumeDownload_spec (rd : ResumeMetadata) (cur : FileMetadata) :
    ((∃ e, planResumeDownload rd cur = .error e) ↔
      rd.fileMetadata = none ∨
        (∃ fm, rd.fileMetadata = some fm ∧
          (fm.size ≠ cur.size ∨ fm.filename ≠ cur.filename))) ∧
    (∀ fm, rd.fileMetadata = some fm → fm.size = cur.size → fm.filename = cur.filename →
      planResumeDownload rd cur = .ok rd.segments) ∧
    (∀ m c, c.resumeData = some rd →
      PlanDownload (some m) (some c) = planResumeDownload rd m) := by
  refine ⟨?_, ?_, ?_⟩
  · cases hfm : rd.fileMetadata with
    | none => simp [planResumeDownload, hfm]
    | some fm =>
      simp only [planResumeDownload, hfm]
      by_cases hsz : fm.size = cur.size
      · by_cases hnm : fm.filename = cur.filename
        · simp [hsz, hnm]
        · simp [hsz, hnm]
      · simp [hsz]
  · intro fm hfm hsz hnm
    simp [planResumeDownload, hfm, hsz, hnm]
  · intro m c hc
    simp [PlanDownload, hc]

/-- Witness for `planResumeDownload_spec`: a matching resume record is
returned verbatim. -/
theorem planResumeDownload_spec_witness :
    planResumeDownload
      ⟨some ⟨"a.bin", 10, "u", "s", 0, ""⟩, [⟨0, 0, 9, false, 0⟩], 0, 0⟩
      ⟨"a.bin", 10, "u2", "s2", 1, "c"⟩ =
      .ok [⟨0, 0, 9, false, 0⟩] :=
  (planResumeDownload_spec _ _).2.1 _ rfl rfl rfl

/-! ## JSON serialization of the resume metadata

`SaveResumeMetadata` marshals a `ResumeMetadata` with `encoding/json` and
`LoadResumeMetadata` unmarshals it back (src/unnamed/part_005).  The JSON
text is modelled as an abstract JSON value; numbers carry the `int64`
values (the `time.Time` fields ride along as abstract instants).  The
decoder follows Go's unmarshalling discipline: a missing or `null` field
leaves the zero value, a field of the wrong shape is an error, and a
non-object document is an error. -/

inductive Json
  | null
  | bool (b : Bool)
  | num (n : Int)
  | str (s : String)
  | arr (elems : List Json)
  | obj (fields : List (String × Json))

/-- Field lookup in a JSON object (the encoder never emits duplicate
keys, so first match suffices). -/
def jLookup (fields : List (String × Json)) (key : String) : Option Json :=
  match fields with
  | [] => none
  | (k, v) :: rest => if k = key then some v else jLookup rest key

/-- Reads an integer field the way Go fills an `int`/`int64` struct
member: missing or `null` leaves 0, a number is taken, anything else is an
unmarshalling error. -/
def decodeIntField (fields : List (String × Json)) (key : String) : Option Int :=
  match jLookup fields key with
  | none => some 0
  | some .null => some 0
  | some (.num n) => some n
  | some _ => none

/-- Reads a string field (zero value `""`). -/
def decodeStringField (fields : List (String × Json)) (key : String) : Option String :=
  match jLookup fields key with
  | none => some ""
  | some .null => some ""
  | some (.str s) => some s
  | some _ => none

/-- Reads a boolean field (zero value `false`). -/
def decodeBoolField (fields : List (String × Json)) (key : String) : Option Bool :=
  match jLookup fields key with
  | none => some false
  | some .null => some false
  | some (.bool b) => some b
  | some _ => none

/-- JSON encoding of `internal.SegmentInfo` under its struct tags
`index`, `start`, `end`, `completed`, `retries`. -/
def encodeSegment (s : SegmentInfo) : Json :=
  .obj [("index", .num s.index), ("start", .num s.start), ("end", .num s.endPos),
        ("completed", .bool s.completed), ("retries", .num s.retries)]

/-- Decoding of one `SegmentInfo` object. -/
def decodeSegment (j : Json) : Option SegmentInfo :=
  match j with
  | .obj fields =>
    match decodeIntField fields "index", decodeIntField fields "start",
          decodeIntField fields "end", decodeBoolField fields "completed",
          decodeIntField fields "retries" with
    | some i, some st, some en, some c, some r => some ⟨i, st, en, c, r⟩
    | _, _, _, _, _ => none
  | _ => none

/-- JSON encoding of `internal.FileMetadata`; the `checksum` tag carries
`omitempty`, so an empty checksum is not emitted. -/
def encodeFileMetadata (m : FileMetadata) : Json :=
  .obj ([("filename", .str m.filename), ("size", .num m.size),
         ("direct_url", .str m.directURL), ("share_id", .str m.shareID),
         ("timestamp", .num m.timestamp)] ++
        (if m.checksum = "" then [] else [("checksum", .str m.checksum)]))

/-- Decoding of one `FileMetadata` object. -/
def decodeFileMetadata (j : Json) : Option FileMetadata :=
  match j with
  | .obj fields =>
    match decodeStringField fields "filename", decodeIntField fields "size",
          decodeStringField fields "direct_url", decodeStringField fields "share_id",
          decodeIntField fields "timestamp", decodeStringField fields "checksum" with
    | some fn, some sz, some du, some si, some ts, some ck =>
      some ⟨fn, sz, du, si, ts, ck⟩
    | _, _, _, _, _, _ => none
  | _ => none

/-- Decoding of the nullable `file_metadata` pointer field: missing or
`null` leaves the `nil` pointer. -/
def decodePtrField (fields : List (String × Json)) : Option (Option FileMetadata) :=
  match jLookup fields "file_metadata" with
  | none => some none
  | some .null => some none
  | some j =>
    match decodeFileMetadata j with
    | some m => some (some m)
    | none => none

/-- Element-wise decoding of a JSON array of segments. -/
def decodeSegList : List Json → Option (List SegmentInfo)
  | [] => some []
  | j :: rest =>
    match decodeSegment j, decodeSegList rest with
    | some s, some l => some (s :: l)
    | _, _ => none

/-- Decoding of the `segments` slice field: missing or `null` leaves the
`nil` slice. -/
def decodeSegmentsField (fields : List (String × Json)) : Option (List SegmentInfo) :=
  match jLookup fields "segments" with
  | none => some []
  | some .null => some []
  | some (.arr js) => decodeSegList js
  | some _ => none

/-- JSON encoding of `internal.ResumeMetadata` under its struct tags. -/
def encodeResume (r : ResumeMetadata) : Json :=
  .obj [("file_metadata",
          match r.fileMetadata with
          | none => .null
          | some m => encodeFileMetadata m),
        ("segments", .arr (r.segments.map encodeSegment)),
        ("created_at", .num r.createdAt), ("last_update", .num r.lastUpdate)]

/-- Decoding of one `ResumeMetadata` document. -/
def decodeResume (j : Json) : Option ResumeMetadata :=
  match j with
  | .obj fields =>
    match decodePtrField fields, decodeSegmentsField fields,
          decodeIntField fields "created_at", decodeIntField fields "last_update" with
    | some fm, some segs, some c, some l => some ⟨fm, segs, c, l⟩
    | _, _, _, _ => none
  | _ => none

theorem decodeSegment_encodeSegment (s : SegmentInfo) :
    decodeSegment (encodeSegment s) = some s := rfl

theorem decodeSegList_encode (segs : List SegmentInfo) :
    decodeSegList (segs.map encodeSegment) = some segs := by
  induction segs with
  | nil => rfl
  | cons s rest ih => simp [decodeSegList, decodeSegment_encodeSegment, ih]

theorem decodeFileMetadata_encode (m : FileMetadata) :
    decodeFileMetadata (encodeFileMetadata m) = some m := by
  obtain ⟨fn, sz, du, si, ts, ck⟩ := m
  by_cases h : ck = ""
  · subst h
    rfl
  · simp only [encodeFileMetadata, if_neg h]
    rfl

theorem decodeResume_encodeResume (r : ResumeMetadata) :
    decodeResume (encodeResume r) = some r := by
  obtain ⟨fm, segs, c, l⟩ := r
  cases fm with
  | none =>
    simp [encodeResume, decodeResume, decodePtrField, decodeSegmentsField,
      decodeIntField, jLookup, decodeSegList_encode]
  | some m =>
    obtain ⟨fn, sz, du, si, ts, ck⟩ := m
    by_cases h : ck = ""
    · subst h
      simp [encodeResume, decodeResume, decodePtrField, decodeSegmentsField,
        decodeIntField, encodeFileMetadata, decodeFileMetadata, decodeStringField,
        jLookup, decodeSegList_encode]
    · simp [encodeResume, decodeResume, decodePtrField, decodeSegmentsField,
        decodeIntField, encodeFileMetadata, decodeFileMetadata, decodeStringField,
        jLookup, decodeSegList_encode, if_neg h]

/-! ## The on-disk state

A file entry records the byte size `os.Stat` reports and, when the bytes
form valid JSON, the parsed document. -/

structure FileEntry where
  parsed : Option Json
  size : Int

/-- The file system: a map from paths to entries. -/
def FS : Type := String → Option FileEntry

/-- `ResumeMetadataExt = ".terafetch.json"` (src/unnamed/part_005). -/
def ResumeMetadataExt : String := ".terafetch.json"

/-- The `".part"` suffix used throughout the engine. -/
def PartExt : String := ".part"

/-- `os.Remove`. -/
def fsRemove (fs : FS) (path : String) : FS :=
  fun p => if p = path then none else fs p

/-- Embeds `DownloadPlanner.SaveResumeMetadata` (src/unnamed/part_005
lines 168-195): builds the `ResumeMetadata` record with both time stamps
set to `now` and writes its JSON marshalling at
`outputPath + ResumeMetadataExt` (directory creation and write errors are
not modelled; the byte length of the written text is not modelled and is
recorded as 0). -/
def SaveResumeMetadata (fs : FS) (outputPath : String) (meta : Option FileMetadata)
    (segments : List SegmentInfo) (now : Int) : FS :=
  let resumeData : ResumeMetadata :=
    { fileMetadata := meta, segments := segments, createdAt := now, lastUpdate := now }
  let metadataPath := outputPath ++ ResumeMetadataExt
  fun p => if p = metadataPath then some ⟨some (encodeResume resumeData), 0⟩ else fs p

/-- Embeds `DownloadPlanner.LoadResumeMetadata` (src/unnamed/part_005
lines 198-219): error when the file is missing, unreadable as JSON, or not
a valid `ResumeMetadata` document. -/
def LoadResumeMetadata (fs : FS) (outputPath : String) : Except Unit ResumeMetadata :=
  match fs (outputPath ++ ResumeMetadataExt) with
  | none => .error ()
  | some entry =>
    match entry.parsed with
    | none => .error ()
    | some j =>
      match decodeResume j with
      | none => .error ()
      | some resumeData => .ok resumeData

/-- C4: saving resume metadata and loading it back from the same output
path returns a record whose `file_metadata` and `segments` (and time
stamps) equal the saved ones. -/
theorem saveLoad_roundTrip (fs : FS) (outputPath : String) (meta : Option FileMetadata)
    (segments : List SegmentInfo) (now : Int) :
    LoadResumeMetadata (SaveResumeMetadata fs outputPath meta segments now) outputPath =
      .ok { fileMetadata := meta, segments := segments, createdAt := now,
            lastUpdate := now } := by
  simp only [LoadResumeMetadata, SaveResumeMetadata, if_pos rfl]
  rw [decodeResume_encodeResume]

/-- The three ways `DetectResumableDownload` can come back:
`ok r` is the `(resumeData, nil)` return (with `r = none` for "no resume
data available"), `err` is a `(nil, error)` return, and `nilDeref` marks
the input on which the Go code dereferences the nil
`resumeData.FileMetadata` pointer at `expectedSize :=
resumeData.FileMetadata.Size` and panics. -/
inductive DetectOutcome
  | ok (r : Option ResumeMetadata)
  | err
  | nilDeref
  deriving Repr, DecidableEq

/-- Embeds `DownloadPlanner.DetectResumableDownload` (src/unnamed/part_005
lines 285-324), returning the file system after its `os.Remove` calls
together with the outcome. -/
def DetectResumableDownload (fs : FS) (outputPath : String) : FS × DetectOutcome :=
  let metadataPath := outputPath ++ ResumeMetadataExt
  let partPath := outputPath ++ PartExt
  match fs metadataPath with
  | none => (fs, .ok none)
  | some _ =>
    match fs partPath with
    | none =>
      -- metadata exists but no part file: cleanup stale metadata
      (fsRemove fs metadataPath, .ok none)
    | some partEntry =>
      match LoadResumeMetadata fs outputPath with
      | .error _ =>
        -- invalid metadata: cleanup both and report an error
        (fsRemove (fsRemove fs metadataPath) partPath, .err)
      | .ok resumeData =>
        -- os.Stat(partPath) cannot fail here: the part file exists
        match resumeData.fileMetadata with
        | none => (fs, .nilDeref)
        | some fm =>
          if partEntry.size > fm.size then
            -- part file larger than expected: cleanup both, error
            (fsRemove (fsRemove fs metadataPath) partPath, .err)
          else (fs, .ok (some resumeData))

theorem loadResume_inv (fs : FS) (outputPath : String) (me : FileEntry)
    (rd : ResumeMetadata) (hme : fs (outputPath ++ ResumeMetadataExt) = some me)
    (h : LoadResumeMetadata fs outputPath = .ok rd) :
    ∃ j, me.parsed = some j ∧ decodeResume j = some rd := by
  simp only [LoadResumeMetadata, hme] at h
  split at h
  · cases h
  · rename_i j hp
    split at h
    · cases h
    · rename_i rd' hd
      obtain rfl : rd' = rd := by injection h
      exact ⟨j, hp, hd⟩

theorem loadResume_eq_ok (fs : FS) (outputPath : String) (me : FileEntry) (j : Json)
    (rd : ResumeMetadata) (hme : fs (outputPath ++ ResumeMetadataExt) = some me)
    (hp : me.parsed = some j) (hd : decodeResume j = some rd) :
    LoadResumeMetadata fs outputPath = .ok rd := by
  simp [LoadResumeMetadata, hme, hp, hd]

/-- C5: `DetectResumableDownload` returns a resume record exactly when the
metadata file and the part file both exist, the metadata parses to a
record (with its file metadata present), and the part file's size is at
most the expected size recorded there; metadata without a part file is
deleted and `none` returned without error; a part file larger than the
expected size deletes both files and reports an error. -/
theorem detectResumableDownload_spec (fs : FS) (outputPath : String) :
    (∀ rd, (DetectResumableDownload fs outputPath).2 = .ok (some rd) ↔
      (∃ me pe j fm,
        fs (outputPath ++ ResumeMetadataExt) = some me ∧
        fs (outputPath ++ PartExt) = some pe ∧
        me.parsed = some j ∧ decodeResume j = some rd ∧
        rd.fileMetadata = some fm ∧ pe.size ≤ fm.size)) ∧
    (∀ me, fs (outputPath ++ ResumeMetadataExt) = some me →
      fs (outputPath ++ PartExt) = none →
      DetectResumableDownload fs outputPath =
        (fsRemove fs (outputPath ++ ResumeMetadataExt), .ok none)) ∧
    (∀ me pe j rd fm, fs (outputPath ++ ResumeMetadataExt) = some me →
      fs (outputPath ++ PartExt) = some pe →
      me.parsed = some j → decodeResume j = some rd → rd.fileMetadata = some fm →
      fm.size < pe.size →
      DetectResumableDownload fs outputPath =
        (fsRemove (fsRemove fs (outputPath ++ ResumeMetadataExt)) (outputPath ++ PartExt),
          .err)) := by
  refine ⟨?_, ?_, ?_⟩
  · intro rd
    constructor
    · intro h
      cases hme : fs (outputPath ++ ResumeMetadataExt) with
      | none => simp [DetectResumableDownload, hme] at h
      | some me =>
        cases hpe : fs (outputPath ++ PartExt) with
        | none => simp [DetectResumableDownload, hme, hpe] at h
        | some pe =>
          cases hload : LoadResumeMetadata fs outputPath with
          | error e => simp [DetectResumableDownload, hme, hpe, hload] at h
          | ok rd' =>
            cases hfm : rd'.fileMetadata with
            | none => simp [DetectResumableDownload, hme, hpe, hload, hfm] at h
            | some fm =>
              by_cases hsz : fm.size < pe.size
              · simp [DetectResumableDownload, hme, hpe, hload, hfm, hsz] at h
              · simp only [DetectResumableDownload, hme, hpe, hload, hfm, gt_iff_lt,
                  if_neg hsz, DetectOutcome.ok.injEq, Option.some.injEq] at h
                subst h
                obtain ⟨j, hp, hd⟩ := loadResume_inv fs outputPath me rd' hme hload
                exact ⟨me, pe, j, fm, rfl, rfl, hp, hd, hfm, by omega⟩
    · intro ⟨me, pe, j, fm, hme, hpe, hp, hd, hfm, hsz⟩
      have hload : LoadResumeMetadata fs outputPath = .ok rd :=
        loadResume_eq_ok fs outputPath me j rd hme hp hd
      have hngt : ¬ fm.size < pe.size := by omega
      simp [DetectResumableDownload, hme, hpe, hload, hfm, hngt]
  · intro me hme hpe
    simp [DetectResumableDownload, hme, hpe]
  · intro me pe j rd fm hme hpe hp hd hfm hsz
    have hload : LoadResumeMetadata fs outputPath = .ok rd :=
      loadResume_eq_ok fs outputPath me j rd hme hp hd
    simp [DetectResumableDownload, hme, hpe, hload, hfm, hsz]

/-- A concrete file system for the `DetectResumableDownload` witness: the
metadata file holds the encoding of a resume record expecting 10 bytes and
the part file holds 5 bytes. -/
def witnessResume : ResumeMetadata :=
  ⟨some ⟨"a.bin", 10, "u", "s", 0, ""⟩, [⟨0, 0, 9, false, 0⟩], 3, 4⟩

/-- The witness file system. -/
def witnessFS : FS := fun p =>
  if p = "out" ++ ResumeMetadataExt then some ⟨some (encodeResume witnessResume), 0⟩
  else if p = "out" ++ PartExt then some ⟨none, 5⟩
  else none

/-- Witness for `detectResumableDownload_spec`: on `witnessFS` the record
is returned. -/
theorem detectResumableDownload_spec_witness :
    (DetectResumableDownload witnessFS "out").2 = .ok (some witnessResume) :=
  ((detectResumableDownload_spec witnessFS "out").1 witnessResume).mpr
    ⟨⟨some (encodeResume witnessResume), 0⟩, ⟨none, 5⟩,
      encodeResume witnessResume, ⟨"a.bin", 10, "u", "s", 0, ""⟩,
      by rfl, by rfl, rfl, decodeResume_encodeResume witnessResume, rfl, by decide⟩

/-! ## The rate limiter's effective per-thread rate (src/unnamed/part_014) -/

/-- Embeds `TokenBucketLimiter.calculateEffectiveRate` (src/unnamed/part_014
lines 848-869) as a function of the two fields it reads: `r.rate` and
`r.threadCount`.  Go's `int64` division truncates toward zero
(`Int.tdiv`). -/
def calculateEffectiveRate (rate threadCount : Int) : Int :=
  if threadCount ≤ 1 then rate
  else
    let minPerThread : Int := 1024
    let totalMinimum : Int := minPerThread * threadCount
    if rate ≤ totalMinimum then rate.tdiv threadCount
    else rate

/-- C8 as the specification words it: full rate for at most one thread,
`rate/threads` exactly when `rate < threads * 1024`, and otherwise a value
that lets the full configured rate through. -/
def effectiveRateClaimC8 (rate threadCount : Int) : Int :=
  if threadCount ≤ 1 then rate
  else if rate < threadCount * 1024 then rate.tdiv threadCount
  else rate

/-- C8 counterexample: at the boundary `rate = threads * 1024` (here
`rate = 2048`, `threads = 2`) the code divides the rate
(`calculateEffectiveRate = 1024`) because its test is `rate <= totalMinimum`,
while the claim (`rate < threads * 1024` being false) promises the full
configured rate 2048. -/
theorem calculateEffectiveRate_boundary_counterexample :
    calculateEffectiveRate 2048 2 = 1024 ∧
      effectiveRateClaimC8 2048 2 = 2048 ∧
      calculateEffectiveRate 2048 2 ≠ effectiveRateClaimC8 2048 2 := by
  refine ⟨rfl, rfl, ?_⟩
  decide

/-- C8 amended: the dividing case is `rate ≤ threads * 1024` (not `<`):
the effective rate equals the configured rate for at most one registered
thread, equals `rate/threads` exactly when `rate ≤ threads * 1024` with
more than one thread, and equals the full configured rate in all remaining
cases. -/
theorem calculateEffectiveRate_spec (rate threadCount : Int) :
    calculateEffectiveRate rate threadCount =
      if threadCount ≤ 1 then rate
      else if rate ≤ threadCount * 1024 then rate.tdiv threadCount
      else rate := by
  simp only [calculateEffectiveRate]
  rw [Int.mul_comm]

/-! ## Segment download in the worker pool (src/unnamed/part_008)

A response body (`io.Reader`) is modelled as the script of results its
successive `Read` calls deliver.  Writes to the part file always succeed
in full (the short-write branch of `copyWithRateLimit` is therefore never
taken in the model), the rate limiter's `Wait` succeeds, and the context
is never cancelled. -/

/-- The error value a body read returns: `ok` is a nil error, `eof` is
`io.EOF`, and `fail networkish` any other read error (`networkish`
records whether its message matches the substring list of
`isNetworkError`). -/
inductive ReadEnd
  | ok
  | eof
  | fail (networkish : Bool)
  deriving Repr, DecidableEq

/-- One `src.Read` result: `n` bytes delivered together with the error
value returned beside them. -/
structure ReadChunk where
  n : Int
  readEnd : ReadEnd
  deriving Repr, DecidableEq

/-- The 32 KiB buffer of `copyWithRateLimit`. -/
def bufferSize : Int := 32 * 1024

/-- The `for totalWritten < maxBytes` loop of
`WorkerPool.copyWithRateLimit` (src/unnamed/part_008 lines 500-552).
Returns the bytes written and `some networkish` when a read failed (`none`
on normal or EOF termination).  An exhausted script reads as `(0, io.EOF)`. -/
def copyLoop (maxBytes : Int) : List ReadChunk → Int → Int × Option Bool
  | chunks, totalWritten =>
    if totalWritten < maxBytes then
      match chunks with
      | [] => (totalWritten, none)
      | c :: rest =>
        let remaining := maxBytes - totalWritten
        let toRead := if bufferSize > remaining then remaining else bufferSize
        -- a Reader delivers at most the requested `toRead` bytes
        let n := if c.n > toRead then toRead else c.n
        let totalWritten' := totalWritten + n
        match c.readEnd with
        | .ok => copyLoop maxBytes rest totalWritten'
        | .eof => (totalWritten', none)
        | .fail networkish => (totalWritten', some networkish)
    else (totalWritten, none)

/-- `WorkerPool.copyWithRateLimit` itself. -/
def copyWithRateLimit (maxBytes : Int) (body : List ReadChunk) : Int × Option Bool :=
  copyLoop maxBytes body 0

/-- An HTTP response as the segment downloader sees it: the status code
and the body read script. -/
structure HttpResponse where
  statusCode : Int
  body : List ReadChunk

/-- The error values `downloadSegment` can produce (src/unnamed/part_008
lines 447-464).  `copyFailed networkish` wraps a read error of the body;
none of the fixed status messages ("range not satisfiable...",
"Rate limit exceeded...", "Access forbidden", "unexpected HTTP status")
contains a substring from the `isNetworkError` list. -/
inductive SegmentError
  | rangeNotSatisfiable
  | rateLimited
  | forbidden
  | unexpectedStatus (code : Int)
  | copyFailed (networkish : Bool)
  deriving Repr, DecidableEq

/-- Embeds `WorkerPool.downloadSegment` (src/unnamed/part_008 lines
420-469) from the point where the response arrives: status check, then
the rate-limited copy of at most `end - start + 1` bytes.  The successful
return carries `result.BytesWritten`. -/
def downloadSegment (segment : SegmentInfo) (resp : HttpResponse) :
    Except SegmentError Int :=
  if resp.statusCode ≠ 206 ∧ resp.statusCode ≠ 200 then
    if resp.statusCode = 416 then .error .rangeNotSatisfiable
    else if resp.statusCode = 429 then .error .rateLimited
    else if resp.statusCode = 403 then .error .forbidden
    else .error (.unexpectedStatus resp.statusCode)
  else
    match copyWithRateLimit (segment.endPos - segment.start + 1) resp.body with
    | (totalWritten, some networkish) =>
      let _ := totalWritten
      .error (.copyFailed networkish)
    | (bytesWritten, none) => .ok bytesWritten

/-- `WorkerPool.isNetworkError` (src/unnamed/part_008 lines 472-497)
evaluated on each error `downloadSegment` can produce: only a wrapped
read error can match the substring list. -/
def isNetworkError : SegmentError → Bool
  | .copyFailed networkish => networkish
  | _ => false

/-- `DownloadResult` (src/unnamed/part_008 lines 26-31). -/
structure DownloadResult where
  segmentIndex : Int
  bytesWritten : Int
  error : Option SegmentError
  completed : Bool
  deriving Repr, DecidableEq

/-- `maxRetries := 3` of `processJob`. -/
def maxRetries : Nat := 3

/-- The retry loop of `WorkerPool.processJob` (src/unnamed/part_008 lines
383-417): `responses attempt` is the response delivered on that attempt,
`rem` the remaining attempts (`attempt + rem = maxRetries`); on success
the result is marked completed, on a non-network error or the final
attempt it carries the error and stays incomplete.  The fall-through
result after the loop (unreachable while `maxRetries > 0`) is the
zero-initialised record. -/
def processJobLoop (segment : SegmentInfo) (responses : Nat → HttpResponse) :
    Nat → Nat → DownloadResult
  | _, 0 =>
    { segmentIndex := segment.index, bytesWritten := 0, error := none, completed := false }
  | attempt, rem + 1 =>
    match downloadSegment segment (responses attempt) with
    | .ok bw =>
      { segmentIndex := segment.index, bytesWritten := bw, error := none, completed := true }
    | .error e =>
      if isNetworkError e = false ∨ attempt = maxRetries - 1 then
        { segmentIndex := segment.index, bytesWritten := 0, error := some e,
          completed := false }
      else processJobLoop segment responses (attempt + 1) rem

/-- `WorkerPool.processJob`. -/
def processJob (segment : SegmentInfo) (responses : Nat → HttpResponse) : DownloadResult :=
  processJobLoop segment responses 0 maxRetries

/-- A 10-byte segment and a 206 response whose body delivers 5 bytes and
then reports EOF: a short transfer. -/
def shortSeg : SegmentInfo := ⟨0, 0, 9, false, 0⟩

/-- The short-transfer response for the C2 counterexample. -/
def shortResp : HttpResponse := ⟨206, [⟨5, .eof⟩]⟩

/-- C2 counterexample: on a response body that reaches EOF after 5 of the
10 requested bytes, `processJob` reports the segment as completed with no
error (`BytesWritten = 5 < 10`), where the claim demands a failure. -/
theorem shortTransfer_completed_counterexample :
    processJob shortSeg (fun _ => shortResp) =
      { segmentIndex := 0, bytesWritten := 5, error := none, completed := true } ∧
      (5 : Int) < segLen shortSeg := by
  refine ⟨?_, by decide⟩
  rfl

theorem copyLoop_noFail (maxBytes : Int) :
    ∀ (body : List ReadChunk) (tw : Int),
      (∀ c ∈ body, ∀ b, c.readEnd ≠ .fail b) →
      (copyLoop maxBytes body tw).2 = none := by
  intro body
  induction body with
  | nil =>
    intro tw _
    rw [copyLoop]
    split <;> rfl
  | cons c rest ih =>
    intro tw hnf
    rw [copyLoop]
    split
    · cases herr : c.readEnd with
      | ok =>
        simp only [herr]
        exact ih _ fun c' hc' => hnf c' (List.mem_cons_of_mem _ hc')
      | eof => simp [herr]
      | fail b => exact absurd herr (hnf c (List.mem_cons_self c rest) b)
    · rfl

/-- C2 amended: a short transfer is not detected as a failure.  Whenever
the response status is 206 and the body script contains no read error,
`processJob` reports the segment as completed with no error and
`BytesWritten` equal to whatever the copy loop transferred — even when EOF
arrived before `end - start + 1` bytes (the counterexample shows 5 of 10
bytes being reported as completed).  Only read failures, short writes to
the part file, and bad HTTP statuses make a segment fail. -/
theorem processJob_short_transfer_completes (segment : SegmentInfo)
    (responses : Nat → HttpResponse)
    (hstatus : (responses 0).statusCode = 206)
    (hbody : ∀ c ∈ (responses 0).body, ∀ b, c.readEnd ≠ .fail b) :
    (processJob segment responses).completed = true ∧
    (processJob segment responses).error = none ∧
    (processJob segment responses).bytesWritten =
      (copyWithRateLimit (segLen segment) (responses 0).body).1 := by
  have hcopy : (copyLoop (segLen segment) (responses 0).body 0).2 = none :=
    copyLoop_noFail (segLen segment) (responses 0).body 0 hbody
  rcases hcw : copyWithRateLimit (segLen segment) (responses 0).body with ⟨bw, e⟩
  have he : e = none := by
    have h2 := hcopy
    rw [show copyLoop (segLen segment) (responses 0).body 0 = (bw, e) from hcw] at h2
    exact h2
  subst he
  have hok : downloadSegment segment (responses 0) = .ok bw := by
    rw [downloadSegment, if_neg (by rw [hstatus]; rintro ⟨h1, -⟩; exact h1 rfl)]
    rw [show segment.endPos - segment.start + 1 = segLen segment from rfl, hcw]
  have hpj : processJob segment responses =
      { segmentIndex := segment.index, bytesWritten := bw, error := none,
        completed := true } := by
    simp only [processJob, maxRetries]
    rw [show (3 : Nat) = 2 + 1 from rfl, processJobLoop, hok]
  rw [hpj]
  exact ⟨rfl, rfl, rfl⟩

/-- Witness for `processJob_short_transfer_completes` on the concrete
short-transfer input. -/
theorem processJob_short_transfer_completes_witness :
    (processJob shortSeg (fun _ => shortResp)).completed = true ∧
      (processJob shortSeg (fun _ => shortResp)).error = none :=
  ⟨(processJob_short_transfer_completes shortSeg (fun _ => shortResp) rfl (by decide)).1,
   (processJob_short_transfer_completes shortSeg (fun _ => shortResp) rfl (by decide)).2.1⟩

/-! ## Order of events in the download coordinator (src/unnamed/part_008)

`MultiThreadEngine.executeDownload` and `MultiThreadEngine.Download` are
sequential orchestration code; their observable actions on a successful
fresh download are embedded as an event trace in program order.  Deferred
calls run in reverse registration order when `executeDownload` returns:
the progress-tracker finish, then `pool.shutdown()` (which joins the
workers with `wg.Wait`), then `partFile.Close()`. -/

inductive Event
  | ensureDir
  | detectResume
  | planSegments
  | createPartFile
  | saveResumeMetadata
  | openPartFile
  | truncatePart
  | poolStart
  | segmentResult (index : Int) (completed : Bool)
  | atomicRename
  | progressFinish
  | workersJoined
  | closePartFile
  | verifyIntegrity
  | cleanupResumeMetadata
  deriving Repr, DecidableEq

/-- The observable actions of a run of `executeDownload`
(src/unnamed/part_008 lines 209-310) in which every segment download
succeeds: open and truncate the part file, start the pool, collect one
successful result per segment (in the model the results arrive in segment
order; the order among them is irrelevant to the claim), perform the
atomic rename (line 305), and then run the deferred finalisers — progress
finish, pool shutdown (the `wg.Wait` join), part-file close. -/
def executeDownloadTrace (segments : List SegmentInfo) : List Event :=
  [.openPartFile, .truncatePart, .poolStart] ++
    segments.map (fun s => .segmentResult s.index true) ++
    [.atomicRename, .progressFinish, .workersJoined, .closePartFile]

/-- The observable actions of a successful fresh run of
`MultiThreadEngine.Download` (src/unnamed/part_008 lines 62-151): prepare
the directory, detect (no) resume data, plan, create the part file, save
the initial resume metadata, execute the download (one successful global
attempt), verify file integrity (line 140, after `executeDownloadWithRetry`
returns), and clean up the resume metadata. -/
def downloadTrace (segments : List SegmentInfo) : List Event :=
  [.ensureDir, .detectResume, .planSegments, .createPartFile, .saveResumeMetadata] ++
    executeDownloadTrace segments ++
    [.verifyIntegrity, .cleanupResumeMetadata]

/-- C3 counterexample: in the successful two-segment run, the atomic
rename occurs at trace position 10, strictly before the worker join
(position 12) and before the size verification (position 14) — the claim
that the rename happens only after the workers are joined and after the
integrity check fails. -/
theorem rename_before_verify_counterexample :
    (downloadTrace [⟨0, 0, 9, false, 0⟩, ⟨1, 10, 19, false, 0⟩]).indexOf .atomicRename = 10 ∧
    (downloadTrace [⟨0, 0, 9, false, 0⟩, ⟨1, 10, 19, false, 0⟩]).indexOf .workersJoined = 12 ∧
    (downloadTrace [⟨0, 0, 9, false, 0⟩, ⟨1, 10, 19, false, 0⟩]).indexOf .verifyIntegrity = 14 ∧
    ¬ ((downloadTrace [⟨0, 0, 9, false, 0⟩, ⟨1, 10, 19, false, 0⟩]).indexOf .verifyIntegrity <
        (downloadTrace [⟨0, 0, 9, false, 0⟩, ⟨1, 10, 19, false, 0⟩]).indexOf .atomicRename) := by
  refine ⟨rfl, rfl, rfl, ?_⟩
  decide

/-- C3 amended: in every successful run the atomic rename happens after
every segment's result has been collected (all bytes written), but before
the workers are joined and before the size verification — which therefore
examines the already renamed output file.  Formally, the trace splits as
`pre ++ atomicRename :: post` where `pre` holds all segment results and no
rename, and `post` is exactly the join, the close, and the verification
followed by the metadata cleanup. -/
theorem download_trace_order (segments : List SegmentInfo) :
    ∃ pre, downloadTrace segments =
        pre ++ Event.atomicRename ::
          [.progressFinish, .workersJoined, .closePartFile, .verifyIntegrity,
            .cleanupResumeMetadata] ∧
      (∀ s ∈ segments, Event.segmentResult s.index true ∈ pre) ∧
      Event.atomicRename ∉ pre := by
  refine ⟨[.ensureDir, .detectResume, .planSegments, .createPartFile, .saveResumeMetadata,
    .openPartFile, .truncatePart, .poolStart] ++
      segments.map (fun s => .segmentResult s.index true), ?_, ?_, ?_⟩
  · simp [downloadTrace, executeDownloadTrace]
  · intro s hs
    simp only [List.mem_append]
    exact Or.inr (List.mem_map_of_mem _ hs)
  · intro hmem
    simp only [List.mem_append, List.mem_map] at hmem
    rcases hmem with h | ⟨s, _, h⟩
    · simp at h
    · cases h

/-- Witness for `download_trace_order` at a concrete one-segment plan. -/
theorem download_trace_order_witness :
    ∃ pre, downloadTrace [⟨0, 0, 9, false, 0⟩] =
        pre ++ Event.atomicRename ::
          [.progressFinish, .workersJoined, .closePartFile, .verifyIntegrity,
            .cleanupResumeMetadata] ∧
      (∀ s ∈ [(⟨0, 0, 9, false, 0⟩ : SegmentInfo)],
        Event.segmentResult s.index true ∈ pre) ∧
      Event.atomicRename ∉ pre :=
  download_trace_order [⟨0, 0, 9, false, 0⟩]

/-! ## The HTTP transport's retry loop (src/internal/config.go)

`executeWithRetryContext` retries up to `MaxAttempts` times, sleeping
`calculateDelay(attempt)` before every attempt but the first.  Durations
are nanoseconds; `float64` arithmetic is carried exactly in `ℚ`, with the
random jitter factor `rand.Float64()*2 - 1 ∈ [-1, 1]` supplied per
attempt.  One attempt's outcome is either a transport error or a response
bearing a status code and the (possibly present) `Retry-After` header;
the value of that header is part of the input so that the claim about it
can be stated. -/

/-- `RetryConfig.BaseDelay = 1s` in nanoseconds. -/
def baseDelayNs : ℚ := 1000000000

/-- `RetryConfig.MaxDelay = 30s` in nanoseconds. -/
def maxDelayNs : ℚ := 30000000000

/-- `RetryConfig.Multiplier = 2.0`. -/
def retryMultiplier : ℚ := 2

/-- `RetryConfig.JitterPercent = 0.1`. -/
def jitterPercent : ℚ := 1 / 10

/-- `MaxAttempts = 3`. -/
def maxAttempts : Nat := 3

/-- Embeds `HTTPClient.calculateDelay` (src/internal/config.go lines
436-455): exponential backoff with jitter, capped at `MaxDelay`, and reset
to `BaseDelay` if negative.  `jitterUnit` is the sampled value of
`rand.Float64()*2 - 1`. -/
def calculateDelay (attempt : Nat) (jitterUnit : ℚ) : ℚ :=
  let delay := baseDelayNs * retryMultiplier ^ (attempt - 1)
  let jitter := delay * jitterPercent * jitterUnit
  let delay := delay + jitter
  let delay := if delay > maxDelayNs then maxDelayNs else delay
  if delay < 0 then baseDelayNs else delay

/-- What one attempt of the wrapped request function produces:
a transport error (with its retryability as classified by
`isRetryableError`) or an HTTP response with a status code and an optional
`Retry-After` header value (in seconds). -/
inductive AttemptOutcome
  | netFailure (retryable : Bool)
  | response (statusCode : Int) (retryAfter : Option Int)
  deriving Repr, DecidableEq

/-- How `executeWithRetryContext` can come back. -/
inductive RetryResult
  | success (statusCode : Int)
  | fatalNet
  | fatalStatus (statusCode : Int)
  | failedAfterAttempts
  deriving Repr, DecidableEq

/-- The `for attempt := 0; attempt < MaxAttempts` loop of
`HTTPClient.executeWithRetryContext` (src/internal/config.go lines
359-433), also recording (reversed in the accumulator) the backoff delays
it sleeps: before every attempt with `attempt > 0` it waits
`calculateDelay(attempt)`.  Status handling follows the `switch`:
200/206 succeed, 403 rotates the user agent and retries, 429 retries, 404
and 401 return immediately, 5xx retries, any other status returns
immediately. -/
def retryLoop (outcomes : Nat → AttemptOutcome) (jitterUnit : Nat → ℚ) :
    Nat → Nat → List ℚ → RetryResult × List ℚ
  | _, 0, delays => (.failedAfterAttempts, delays.reverse)
  | attempt, rem + 1, delays =>
    let delays' := if attempt > 0 then calculateDelay attempt (jitterUnit attempt) :: delays
                   else delays
    match outcomes attempt with
    | .netFailure retryable =>
      if retryable = false then (.fatalNet, delays'.reverse)
      else retryLoop outcomes jitterUnit (attempt + 1) rem delays'
    | .response statusCode _ =>
      if statusCode = 200 ∨ statusCode = 206 then (.success statusCode, delays'.reverse)
      else if statusCode = 403 then retryLoop outcomes jitterUnit (attempt + 1) rem delays'
      else if statusCode = 429 then retryLoop outcomes jitterUnit (attempt + 1) rem delays'
      else if statusCode = 404 ∨ statusCode = 401 then (.fatalStatus statusCode, delays'.reverse)
      else if statusCode ≥ 500 then retryLoop outcomes jitterUnit (attempt + 1) rem delays'
      else (.fatalStatus statusCode, delays'.reverse)

/-- `HTTPClient.executeWithRetryContext`: result plus the sequence of
backoff delays slept, in order. -/
def executeWithRetryContext (outcomes : Nat → AttemptOutcome) (jitterUnit : Nat → ℚ) :
    RetryResult × List ℚ :=
  retryLoop outcomes jitterUnit 0 maxAttempts []

/-- The attempt script for the C7 counterexample: the first attempt gets
`429` with header `Retry-After: 60`, every later attempt gets `200`. -/
def retryAfterScript : Nat → AttemptOutcome
  | 0 => .response 429 (some 60)
  | _ + 1 => .response 200 none

/-- C7 counterexample: with `Retry-After: 60` present on the 429 response
(and zero jitter), the delay slept before the retry is
`calculateDelay 1 = 1 s = 10^9 ns`, not the 60 s (`6 * 10^10` ns) the
header asks for: the header is not honoured. -/
theorem retryAfter_ignored_counterexample :
    executeWithRetryContext retryAfterScript (fun _ => 0) =
      (.success 200, [1000000000]) ∧
    (1000000000 : ℚ) ≠ 60 * 1000000000 := by
  constructor
  · show retryLoop retryAfterScript (fun _ => 0) 0 maxAttempts [] =
        (.success 200, [1000000000])
    norm_num [maxAttempts, retryLoop, retryAfterScript, calculateDelay, baseDelayNs,
      maxDelayNs, retryMultiplier, jitterPercent]
  · norm_num

theorem retryLoop_delays_prefix (outcomes : Nat → AttemptOutcome) (jitterUnit : Nat → ℚ) :
    ∀ rem attempt delays, ∃ tail,
      (retryLoop outcomes jitterUnit attempt rem delays).2 = delays.reverse ++ tail := by
  intro rem
  induction rem with
  | zero =>
    intro attempt delays
    exact ⟨[], by simp [retryLoop]⟩
  | succ r ih =>
    intro attempt delays
    rw [retryLoop]
    generalize hif : (if attempt > 0 then
        calculateDelay attempt (jitterUnit attempt) :: delays else delays) = ds'
    have hmid : ∃ mid, ds'.reverse = delays.reverse ++ mid := by
      rw [← hif]
      split
      · exact ⟨[calculateDelay attempt (jitterUnit attempt)], by simp⟩
      · exact ⟨[], by simp⟩
    obtain ⟨mid, hmid⟩ := hmid
    have hrec : ∃ tail, (retryLoop outcomes jitterUnit (attempt + 1) r ds').2 =
        delays.reverse ++ tail := by
      obtain ⟨tail', ht⟩ := ih (attempt + 1) ds'
      exact ⟨mid ++ tail', by rw [ht, hmid, List.append_assoc]⟩
    rcases houtcome : outcomes attempt with rb | ⟨s, ra⟩ <;> dsimp only
    · split
      · exact ⟨mid, hmid⟩
      · exact hrec
    · split
      · exact ⟨mid, hmid⟩
      · split
        · exact hrec
        · split
          · exact hrec
          · split
            · exact ⟨mid, hmid⟩
            · split
              · exact hrec
              · exact ⟨mid, hmid⟩

theorem retryLoop_first_delay (outcomes : Nat → AttemptOutcome) (jitterUnit : Nat → ℚ)
    (attempt r : Nat) (ds : List ℚ) (hpos : 0 < attempt) :
    ∃ tail, (retryLoop outcomes jitterUnit attempt (r + 1) ds).2 =
      ds.reverse ++ calculateDelay attempt (jitterUnit attempt) :: tail := by
  rw [retryLoop]
  rw [if_pos hpos]
  have hrec : ∃ tail, (retryLoop outcomes jitterUnit (attempt + 1) r
      (calculateDelay attempt (jitterUnit attempt) :: ds)).2 =
        ds.reverse ++ calculateDelay attempt (jitterUnit attempt) :: tail := by
    obtain ⟨tail', ht⟩ := retryLoop_delays_prefix outcomes jitterUnit r (attempt + 1)
      (calculateDelay attempt (jitterUnit attempt) :: ds)
    refine ⟨tail', ?_⟩
    rw [ht]
    simp
  rcases houtcome : outcomes attempt with rb | ⟨s, ra⟩ <;> dsimp only
  · split
    · exact ⟨[], by simp⟩
    · exact hrec
  · split
    · exact ⟨[], by simp⟩
    · split
      · exact hrec
      · split
        · exact hrec
        · split
          · exact ⟨[], by simp⟩
          · split
            · exact hrec
            · exact ⟨[], by simp⟩

/-- Two attempt outcomes that agree on everything the retry loop reads:
the transport error classification and the status code.  The `Retry-After`
header may differ arbitrarily. -/
def sameButHeader : AttemptOutcome → AttemptOutcome → Prop
  | .netFailure r, .netFailure r' => r = r'
  | .response s _, .response s' _ => s = s'
  | _, _ => False

theorem retryLoop_ignores_headers (outcomes outcomesB : Nat → AttemptOutcome)
    (jitterUnit : Nat → ℚ) (hsame : ∀ i, sameButHeader (outcomes i) (outcomesB i)) :
    ∀ rem attempt delays,
      retryLoop outcomesB jitterUnit attempt rem delays =
        retryLoop outcomes jitterUnit attempt rem delays := by
  intro rem
  induction rem with
  | zero => intro attempt delays; rfl
  | succ r ih =>
    intro attempt delays
    rw [retryLoop, retryLoop]
    have h := hsame attempt
    rcases ho : outcomes attempt with rb | ⟨s, ra⟩ <;>
      rcases hoB : outcomesB attempt with rb' | ⟨s', ra'⟩ <;>
      rw [ho, hoB] at h
    · obtain rfl : rb = rb' := h
      dsimp only
      split
      · rfl
      · exact ih (attempt + 1) _
    · exact absurd h (by simp [sameButHeader])
    · exact absurd h (by simp [sameButHeader])
    · obtain rfl : s = s' := h
      dsimp only
      split
      · rfl
      · split
        · exact ih (attempt + 1) _
        · split
          · exact ih (attempt + 1) _
          · split
            · rfl
            · split
              · exact ih (attempt + 1) _
              · rfl

/-- C7 amended: on a 429 the transport does retry, but the delay before
the next attempt is the generic exponential-backoff value
`calculateDelay(attempt)` in every case; the `Retry-After` header is never
read — the whole run (result and slept delays) is unchanged under any
modification of the response headers. -/
theorem retry_delay_ignores_retryAfter (outcomes : Nat → AttemptOutcome)
    (jitterUnit : Nat → ℚ) (retryAfter : Option Int)
    (h0 : outcomes 0 = .response 429 retryAfter) :
    (∃ rest, (executeWithRetryContext outcomes jitterUnit).2 =
        calculateDelay 1 (jitterUnit 1) :: rest) ∧
    (∀ outcomesB : Nat → AttemptOutcome,
      (∀ i, sameButHeader (outcomes i) (outcomesB i)) →
      executeWithRetryContext outcomesB jitterUnit =
        executeWithRetryContext outcomes jitterUnit) := by
  constructor
  · show ∃ rest, (retryLoop outcomes jitterUnit 0 maxAttempts []).2 =
        calculateDelay 1 (jitterUnit 1) :: rest
    rw [show maxAttempts = 1 + 1 + 1 from rfl, retryLoop]
    rw [h0]
    norm_num
    obtain ⟨tail, ht⟩ := retryLoop_first_delay outcomes jitterUnit 1 1 [] (by omega)
    exact ⟨tail, by simpa using ht⟩
  · intro outcomesB hsame
    exact retryLoop_ignores_headers outcomes outcomesB jitterUnit hsame maxAttempts 0 []

/-- Witness for `retry_delay_ignores_retryAfter` at the concrete script of
the counterexample. -/
theorem retry_delay_ignores_retryAfter_witness :
    ∃ rest, (executeWithRetryContext retryAfterScript (fun _ => 0)).2 =
      calculateDelay 1 0 :: rest :=
  (retry_delay_ignores_retryAfter retryAfterScript (fun _ => 0) (some 60) rfl).1

/-! ## The token-bucket limiter's dynamic rate adjustment
(src/unnamed/part_014)

The limiter's mutable fields are a record; each exported method becomes a
state transformer.  `float64` arithmetic is carried exactly in `ℚ`; the
wall-clock quantities the methods read (`elapsed` since `lastUpdate`, the
transfer duration, the seconds since `lastAdjustment`) are explicit
parameters of the corresponding operations, so `lastUpdate` and
`lastAdjustment` themselves are not stored.  `utilizationRatio` divides by
`originalRate`; ℚ division by zero yields 0 where Go floats yield ±Inf —
in that case both models set the new rate to `int64(0 * factor) = 0`, so
no statement below depends on the difference. -/

/-- Go's `int64(x)` conversion of a `float64`: truncation toward zero. -/
def int64OfRat (q : ℚ) : Int :=
  if 0 ≤ q then ⌊q⌋ else ⌈q⌉

/-- The mutable state of `TokenBucketLimiter` (src/unnamed/part_014 lines
727-741) together with its `NetworkStats` (the sliding window is the list
of measured speeds; `avgSpeed`, `totalBytes`, `totalDuration` as in the
source). -/
structure LimiterState where
  rate : Int
  bucket : Int
  maxBucket : Int
  threadCount : Int
  originalRate : Int
  adjustmentFactor : ℚ
  measurements : List ℚ
  avgSpeed : ℚ
  totalBytes : Int
  totalDuration : ℚ
  deriving Repr, DecidableEq

/-- `maxMeasurements = 10`. -/
def maxMeasurements : Nat := 10

/-- `NewTokenBucketLimiter` (src/unnamed/part_014 lines 760-777). -/
def NewTokenBucketLimiter (bytesPerSecond : Int) : LimiterState :=
  { rate := bytesPerSecond, bucket := bytesPerSecond, maxBucket := bytesPerSecond,
    threadCount := 0, originalRate := bytesPerSecond, adjustmentFactor := 1,
    measurements := [], avgSpeed := 0, totalBytes := 0, totalDuration := 0 }

/-- `NewDistributedRateLimiter` (src/unnamed/part_014 lines 779-784). -/
def NewDistributedRateLimiter (bytesPerSecond : Int) (threadCount : Int) : LimiterState :=
  { NewTokenBucketLimiter bytesPerSecond with threadCount := threadCount }

/-- `adjustRateBasedOnPerformance` (src/unnamed/part_014 lines 950-995).
`sinceAdjust` is `time.Since(r.lastAdjustment)` in seconds. -/
def adjustRateBasedOnPerformance (sinceAdjust : ℚ) (s : LimiterState) : LimiterState :=
  if sinceAdjust < 5 then s
  else if s.measurements.length < 3 then s
  else
    let recentSpeed := s.avgSpeed
    let targetRate : ℚ := s.originalRate
    let utilizationRatio := recentSpeed / targetRate
    if utilizationRatio < 4 / 5 then
      let newAdjustmentFactor := s.adjustmentFactor * (9 / 10)
      let newRate := int64OfRat ((s.originalRate : ℚ) * newAdjustmentFactor)
      { s with
        adjustmentFactor := newAdjustmentFactor
        rate := newRate
        maxBucket := newRate
        bucket := if s.bucket > newRate then newRate else s.bucket }
    else if utilizationRatio > 19 / 20 ∧ s.adjustmentFactor < 1 then
      let f0 := s.adjustmentFactor * (21 / 20)
      let newAdjustmentFactor := if f0 > 1 then 1 else f0
      let newRate := int64OfRat ((s.originalRate : ℚ) * newAdjustmentFactor)
      { s with
        adjustmentFactor := newAdjustmentFactor
        rate := newRate
        maxBucket := newRate
        bucket := if s.bucket > newRate then newRate else s.bucket }
    else s

/-- `UpdateNetworkStats` (src/unnamed/part_014 lines 907-948). -/
def UpdateNetworkStats (bytesTransferred : Int) (duration : ℚ) (sinceAdjust : ℚ)
    (s : LimiterState) : LimiterState :=
  if duration ≤ 0 ∨ bytesTransferred ≤ 0 then s
  else
    let speed : ℚ := (bytesTransferred : ℚ) / duration
    let ms0 := if s.measurements.length ≥ maxMeasurements then s.measurements.drop 1
               else s.measurements
    let ms := ms0 ++ [speed]
    let avg := if ms.length > 0 then (ms.foldl (· + ·) 0) / (ms.length : ℚ)
               else s.avgSpeed
    let s1 := { s with
      measurements := ms
      avgSpeed := avg
      totalBytes := s.totalBytes + bytesTransferred
      totalDuration := s.totalDuration + duration }
    adjustRateBasedOnPerformance sinceAdjust s1

/-- `SetRate` (src/unnamed/part_014 lines 872-882). -/
def SetRate (bytesPerSecond : Int) (s : LimiterState) : LimiterState :=
  { s with
    rate := bytesPerSecond
    originalRate := bytesPerSecond
    maxBucket := bytesPerSecond
    bucket := if s.bucket > bytesPerSecond then bytesPerSecond else s.bucket }

/-- `RegisterThread` (src/unnamed/part_014 lines 885-889). -/
def RegisterThread (s : LimiterState) : LimiterState :=
  { s with threadCount := s.threadCount + 1 }

/-- `UnregisterThread` (src/unnamed/part_014 lines 892-898). -/
def UnregisterThread (s : LimiterState) : LimiterState :=
  if s.threadCount > 0 then { s with threadCount := s.threadCount - 1 } else s

/-- The refill step of `Wait` (src/unnamed/part_014 lines 796-809): add
`int64(elapsed.Seconds() * effectiveRate)` tokens, clamped to the bucket
capacity. -/
def refillBucket (elapsed : ℚ) (s : LimiterState) : Int :=
  let effectiveRate := calculateEffectiveRate s.rate s.threadCount
  let tokensToAdd := int64OfRat (elapsed * (effectiveRate : ℚ))
  let bucket1 := s.bucket + tokensToAdd
  if bucket1 > s.maxBucket then s.maxBucket else bucket1

/-- `Wait` (src/unnamed/part_014 lines 787-845): refill from the elapsed
wall time at the effective rate, then either debit `n` immediately or
drain the bucket and sleep.  Both exits feed `UpdateNetworkStats` with the
observed transfer time when it is positive (a cancelled context, which
skips the update, is modelled by `transferTime ≤ 0`). -/
def Wait (elapsed : ℚ) (n : Int) (transferTime : ℚ) (sinceAdjust : ℚ)
    (s : LimiterState) : LimiterState :=
  if s.rate ≤ 0 then s
  else if refillBucket elapsed s ≥ n then
    if transferTime > 0 then
      UpdateNetworkStats n transferTime sinceAdjust
        { s with bucket := refillBucket elapsed s - n }
    else { s with bucket := refillBucket elapsed s - n }
  else
    if transferTime > 0 then
      UpdateNetworkStats n transferTime sinceAdjust { s with bucket := 0 }
    else { s with bucket := 0 }

/-- One call to the limiter's public interface, with the wall-clock
quantities it observes as parameters. -/
inductive LimiterOp
  | wait (elapsed : ℚ) (n : Int) (transferTime : ℚ) (sinceAdjust : ℚ)
  | setRate (bytesPerSecond : Int)
  | registerThread
  | unregisterThread
  | updateStats (bytesTransferred : Int) (duration : ℚ) (sinceAdjust : ℚ)
  deriving Repr, DecidableEq

/-- Dispatch of one call. -/
def limiterStep (s : LimiterState) : LimiterOp → LimiterState
  | .wait elapsed n transferTime sinceAdjust => Wait elapsed n transferTime sinceAdjust s
  | .setRate bps => SetRate bps s
  | .registerThread => RegisterThread s
  | .unregisterThread => UnregisterThread s
  | .updateStats b d sinceAdjust => UpdateNetworkStats b d sinceAdjust s

/-- A call sequence against the limiter. -/
def runLimiter (init : LimiterState) (ops : List LimiterOp) : LimiterState :=
  ops.foldl limiterStep init

/-- The C9 invariant: adjustment factor within `[0, 1]`, non-negative
original rate, and active rate never above it. -/
def LimiterInv (s : LimiterState) : Prop :=
  0 ≤ s.adjustmentFactor ∧ s.adjustmentFactor ≤ 1 ∧ 0 ≤ s.originalRate ∧
    s.rate ≤ s.originalRate

/-- Calls whose configured rate is non-negative: the condition the amended
C9 needs on `SetRate`. -/
def OpNonneg : LimiterOp → Prop
  | .setRate bps => 0 ≤ bps
  | _ => True

theorem int64OfRat_le_of_le (q : ℚ) (b : Int) (hq : 0 ≤ q) (h : q ≤ (b : ℚ)) :
    int64OfRat q ≤ b := by
  rw [int64OfRat, if_pos hq]
  calc ⌊q⌋ ≤ ⌊((b : Int) : ℚ)⌋ := Int.floor_le_floor h
    _ = b := Int.floor_intCast b

theorem adjust_preserves (sinceAdjust : ℚ) (s : LimiterState) (h : LimiterInv s) :
    LimiterInv (adjustRateBasedOnPerformance sinceAdjust s) := by
  obtain ⟨h0, h1, h2, h3⟩ := h
  have hq2 : (0 : ℚ) ≤ (s.originalRate : ℚ) := by exact_mod_cast h2
  simp only [adjustRateBasedOnPerformance]
  split
  · exact ⟨h0, h1, h2, h3⟩
  split
  · exact ⟨h0, h1, h2, h3⟩
  split
  · -- network struggling: multiply the factor by 0.9
    have hfle : s.adjustmentFactor * (9 / 10) ≤ 1 := by nlinarith
    have hf0 : (0 : ℚ) ≤ s.adjustmentFactor * (9 / 10) := by positivity
    refine ⟨hf0, hfle, h2, ?_⟩
    apply int64OfRat_le_of_le
    · positivity
    · have hm := mul_le_mul_of_nonneg_left hfle hq2
      linarith
  split
  · -- network healthy: multiply the factor by 1.05, capped at 1
    set nf : ℚ := if s.adjustmentFactor * (21 / 20) > 1 then 1
      else s.adjustmentFactor * (21 / 20) with hnf
    have hfb : (0 : ℚ) ≤ nf ∧ nf ≤ 1 := by
      rw [hnf]
      split
      · exact ⟨zero_le_one, le_refl 1⟩
      · rename_i hgt
        exact ⟨by positivity, le_of_not_lt hgt⟩
    refine ⟨hfb.1, hfb.2, h2, ?_⟩
    apply int64OfRat_le_of_le
    · exact mul_nonneg hq2 hfb.1
    · have hm := mul_le_mul_of_nonneg_left hfb.2 hq2
      linarith
  · exact ⟨h0, h1, h2, h3⟩

theorem update_preserves (b : Int) (d sinceAdjust : ℚ) (s : LimiterState)
    (h : LimiterInv s) :
    LimiterInv (UpdateNetworkStats b d sinceAdjust s) := by
  rw [UpdateNetworkStats]
  split
  · exact h
  · exact adjust_preserves _ _ h

theorem wait_preserves (elapsed : ℚ) (n : Int) (transferTime sinceAdjust : ℚ)
    (s : LimiterState) (h : LimiterInv s) :
    LimiterInv (Wait elapsed n transferTime sinceAdjust s) := by
  rw [Wait]
  split_ifs
  · exact h
  · exact update_preserves n transferTime sinceAdjust _ h
  · exact h
  · exact update_preserves n transferTime sinceAdjust _ h
  · exact h

theorem step_preserves (s : LimiterState) (op : LimiterOp) (h : LimiterInv s)
    (hop : OpNonneg op) : LimiterInv (limiterStep s op) := by
  obtain ⟨h0, h1, h2, h3⟩ := h
  cases op with
  | wait elapsed n transferTime sinceAdjust =>
    exact wait_preserves elapsed n transferTime sinceAdjust s ⟨h0, h1, h2, h3⟩
  | setRate bps => exact ⟨h0, h1, hop, le_refl bps⟩
  | registerThread => exact ⟨h0, h1, h2, h3⟩
  | unregisterThread =>
    rw [limiterStep, UnregisterThread]
    split
    · exact ⟨h0, h1, h2, h3⟩
    · exact ⟨h0, h1, h2, h3⟩
  | updateStats b d sinceAdjust =>
    exact update_preserves b d sinceAdjust s ⟨h0, h1, h2, h3⟩

theorem runLimiter_inv (ops : List LimiterOp) :
    ∀ s : LimiterState, LimiterInv s → (∀ op ∈ ops, OpNonneg op) →
      LimiterInv (runLimiter s ops) := by
  induction ops with
  | nil => intro s hs _; exact hs
  | cons op rest ih =>
    intro s hs hops
    exact ih (limiterStep s op)
      (step_preserves s op hs (hops op (List.mem_cons_self op rest)))
      (fun o ho => hops o (List.mem_cons_of_mem op ho))

/-- C9 amended: starting from a limiter configured with a non-negative
rate, after any sequence of `Wait`, `SetRate` (with non-negative
arguments), `RegisterThread`, `UnregisterThread` and `UpdateNetworkStats`
calls, the active rate never exceeds the original configured rate and the
adjustment factor stays at most 1.  The non-negativity proviso is
necessary: the counterexample shows the invariant fails when the
configured rate is negative. -/
theorem limiter_never_exceeds_original (bps : Int) (hbps : 0 ≤ bps)
    (ops : List LimiterOp) (hops : ∀ op ∈ ops, OpNonneg op) :
    (runLimiter (NewTokenBucketLimiter bps) ops).rate ≤
      (runLimiter (NewTokenBucketLimiter bps) ops).originalRate ∧
    (runLimiter (NewTokenBucketLimiter bps) ops).adjustmentFactor ≤ 1 := by
  have hinit : LimiterInv (NewTokenBucketLimiter bps) :=
    ⟨by norm_num [NewTokenBucketLimiter], by norm_num [NewTokenBucketLimiter],
      hbps, le_refl _⟩
  have h := runLimiter_inv ops (NewTokenBucketLimiter bps) hinit hops
  exact ⟨h.2.2.2, h.2.1⟩

/-- Witness for `limiter_never_exceeds_original`: one `SetRate 50` call on
a limiter configured at 100. -/
theorem limiter_never_exceeds_original_witness :
    (runLimiter (NewTokenBucketLimiter 100) [.setRate 50]).rate ≤
      (runLimiter (NewTokenBucketLimiter 100) [.setRate 50]).originalRate :=
  (limiter_never_exceeds_original 100 (by norm_num) [.setRate 50]
    (by
      intro op hop
      rw [List.mem_singleton] at hop
      subst hop
      show (0 : Int) ≤ 50
      norm_num)).1

/-- The C9 counterexample call sequence: three `UpdateNetworkStats` calls
(100 bytes in 1 s each); the third happens 5 s after the last adjustment,
so the adjustment fires with three measurements in the window. -/
def negRateOps : List LimiterOp :=
  [.updateStats 100 1 0, .updateStats 100 1 0, .updateStats 100 1 5]

/-- C9 counterexample: on a limiter constructed with the negative rate
-100, the three-update sequence drives `utilizationRatio` below 0.8, the
factor drops to 0.9, and the new rate `int64(-100 * 0.9) = -90` EXCEEDS
the original rate -100: the invariant `rate ≤ originalRate` fails, so the
claim does not hold for every sequence without the non-negativity
proviso. -/
theorem limiter_negative_rate_counterexample :
    (runLimiter (NewTokenBucketLimiter (-100)) negRateOps).rate = -90 ∧
    (runLimiter (NewTokenBucketLimiter (-100)) negRateOps).originalRate = -100 ∧
    ¬ ((runLimiter (NewTokenBucketLimiter (-100)) negRateOps).rate ≤
        (runLimiter (NewTokenBucketLimiter (-100)) negRateOps).originalRate) := by
  have hc : ⌈(-90 : ℚ)⌉ = (-90 : Int) := by
    rw [show (-90 : ℚ) = ((-90 : Int) : ℚ) by norm_num, Int.ceil_intCast]
  have hrun : runLimiter (NewTokenBucketLimiter (-100)) negRateOps =
      { rate := -90, bucket := -100, maxBucket := -90, threadCount := 0,
        originalRate := -100, adjustmentFactor := 9 / 10,
        measurements := [100, 100, 100], avgSpeed := 100, totalBytes := 300,
        totalDuration := 3 } := by
    norm_num [runLimiter, negRateOps, limiterStep, NewTokenBucketLimiter,
      UpdateNetworkStats, adjustRateBasedOnPerformance, maxMeasurements,
      int64OfRat, List.foldl, hc]
  rw [hrun]
  norm_num

end TeraFetch
